import Mathlib

/-!
Verification of the SmartForm node-normalization core of `app/main.py`:
the consecutive-ITEM merger (`merge_consecutive_items`), the page-name
resolver (`extract_page_name`), and the `/explain-smartform` endpoint
wiring (`explain_smartform`), embedded shallowly in Lean.
-/

namespace SmartForm

/-- Python `str.strip()`: remove leading and trailing whitespace
(defined over the character list so that proofs and the kernel can
evaluate it). -/
def pyStrip (s : String) : String :=
  ⟨List.reverse (List.dropWhile Char.isWhitespace
    (List.reverse (List.dropWhile Char.isWhitespace s.data)))⟩

/-- Python `str.upper()` on one ASCII character. -/
def pyUpperChar (c : Char) : Char :=
  if 97 ≤ c.toNat && c.toNat ≤ 122 then Char.ofNat (c.toNat - 32) else c

/-- Python `str.lower()` on one ASCII character. -/
def pyLowerChar (c : Char) : Char :=
  if 65 ≤ c.toNat && c.toNat ≤ 90 then Char.ofNat (c.toNat + 32) else c

/-- Python `str.upper()` (ASCII range, which covers every tag and keyword
the source compares against). -/
def pyUpper (s : String) : String :=
  ⟨s.data.map pyUpperChar⟩

/-- Python `str.lower()` (ASCII range). -/
def pyLower (s : String) : String :=
  ⟨s.data.map pyLowerChar⟩

/-- One `{name, value}` attribute record (pydantic model `Attribute`). -/
structure Attribute where
  name : String
  value : String
deriving Repr, DecidableEq

/-- One linearized SmartForm tree record (pydantic model `Node`). -/
structure Node where
  id : Int
  parentId : Int
  depth : Int
  path : String
  elemName : String
  elemNs : String
  nodeType : String
  attributes : List Attribute
  textPayload : String
deriving Repr, DecidableEq

/-- The ITEM test of `merge_consecutive_items`:
`node.elemName.strip().upper() == "ITEM"` (the Python truthiness guard
`node.elemName and ...` is redundant, since the empty string never
uppercases to ITEM). -/
def isItem (node : Node) : Bool :=
  pyUpper (pyStrip node.elemName) == "ITEM"

/-- The loop body of `merge_consecutive_items`, with the mutable
`buffer_node` made an explicit `Option Node` argument.  An ITEM node either
opens the buffer or is folded into it (textPayload joined with a newline,
attributes appended); a non-ITEM node flushes the buffer and passes
through; end of input flushes the buffer. -/
def mergeAux : Option Node → List Node → List Node
  | none, [] => []
  | some b, [] => [b]
  | none, node :: rest =>
    if isItem node then mergeAux (some node) rest
    else node :: mergeAux none rest
  | some b, node :: rest =>
    if isItem node then
      mergeAux (some { b with
        textPayload := b.textPayload ++ "\n" ++ node.textPayload,
        attributes := b.attributes ++ node.attributes }) rest
    else b :: node :: mergeAux none rest

/-- `merge_consecutive_items` of `app/main.py`: collapse each maximal run
of consecutive ITEM nodes into its first node, concatenating payloads with
newline separators and appending attribute lists in order. -/
def merge_consecutive_items (nodes : List Node) : List Node :=
  mergeAux none nodes

/-- The page-marker classification of `extract_page_name`: elemName
(trimmed, uppercased) is PAGE; or elemName is NODETYPE and the trimmed,
uppercased textPayload is PA; or the trimmed, uppercased nodeType is PA. -/
def isPageMarker (node : Node) : Bool :=
  pyUpper (pyStrip node.elemName) == "PAGE" ||
    (pyUpper (pyStrip node.elemName) == "NODETYPE" &&
      pyUpper (pyStrip node.textPayload) == "PA") ||
    pyUpper (pyStrip node.nodeType) == "PA"

/-- The caption test inside the subtree scan of `extract_page_name`:
`nelem in ("CAPTION", "INAME") and ntext` on the trimmed, uppercased
elemName and the trimmed textPayload. -/
def captionHit (nj : Node) : Bool :=
  (pyUpper (pyStrip nj.elemName) == "CAPTION" ||
      pyUpper (pyStrip nj.elemName) == "INAME") &&
    pyStrip nj.textPayload != ""

/-- The subtree scan of `extract_page_name`: walk forward while
`depth > pageDepth`; return the trimmed textPayload of the first CAPTION
or INAME node whose trimmed textPayload is non-empty; stop with no result
at the first node whose depth is at most `pageDepth`. -/
def subtreeScan (pageDepth : Int) : List Node → Option String
  | [] => none
  | nj :: rest =>
    if nj.depth ≤ pageDepth then none
    else if captionHit nj then some (pyStrip nj.textPayload)
    else subtreeScan pageDepth rest

/-- The attribute fallback of `extract_page_name`: the first attribute
whose trimmed, lowercased name is name, iname or caption and whose trimmed
value is non-empty yields that trimmed value. -/
def attrHit (attr : Attribute) : Bool :=
  (pyLower (pyStrip attr.name) == "name" ||
      pyLower (pyStrip attr.name) == "iname" ||
      pyLower (pyStrip attr.name) == "caption") &&
    pyStrip attr.value != ""

/-- The attribute loop of `extract_page_name`: the first attribute
passing `attrHit` yields its trimmed value. -/
def attrScan : List Attribute → Option String
  | [] => none
  | attr :: rest =>
    if attrHit attr then some (pyStrip attr.value)
    else attrScan rest

/-- The outer loop of `extract_page_name` over `enumerate(nodes)`: at each
page marker, first the subtree scan, then the attribute fallback; if both
fail, resume with the next node; a non-marker is skipped. -/
def extractAux : List Node → String
  | [] => ""
  | node :: rest =>
    if isPageMarker node then
      match subtreeScan node.depth rest with
      | some s => s
      | none =>
        match attrScan node.attributes with
        | some v => v
        | none => extractAux rest
    else extractAux rest

/-- `extract_page_name` of `app/main.py` (the `if not nodes: return ""`
early exit coincides with the empty case of the loop). -/
def extract_page_name (nodes : List Node) : String :=
  extractAux nodes

/-- The request body of `/explain-smartform` (pydantic model
`SmartFormInput`; the optional `language` defaults to the empty string). -/
structure SmartFormInput where
  formName : String
  system : String
  client : String
  language : String
  sourceKind : String
  extractedat : String
  nodes : List Node
deriving Repr, DecidableEq

/-- An `HTTPException` raised by the endpoint: status code plus detail. -/
structure HTTPError where
  status : Nat
  detail : String
deriving Repr, DecidableEq

/-- The success response of `/explain-smartform`. -/
structure ExplainResponse (α : Type) where
  formName : String
  system : String
  client : String
  field_table : α
deriving Repr, DecidableEq

/-- `llm_explain_nodes` of `app/main.py`, with the external LLM chain
(`prompt | llm | parser` invoked on the merged nodes and page name)
abstracted as the fallible collaborator `engine`; prompt construction and
JSON serialization do not affect the result value and are elided. -/
def llm_explain_nodes {α : Type} (engine : List Node → String → Except String α)
    (nodes : List Node) : Except String α :=
  let merged := merge_consecutive_items nodes
  let pageName := extract_page_name merged
  engine merged pageName

/-- The `/explain-smartform` endpoint: any exception from
`llm_explain_nodes` becomes `HTTPException(status_code=502, detail=...)`;
on success the response echoes formName, system and client and passes the
engine result through as `field_table`. -/
def explain_smartform {α : Type} (engine : List Node → String → Except String α)
    (payload : SmartFormInput) : Except HTTPError (ExplainResponse α) :=
  match llm_explain_nodes engine payload.nodes with
  | Except.error e =>
      Except.error { status := 502, detail := "LLM call failed: " ++ e }
  | Except.ok rows =>
      Except.ok { formName := payload.formName, system := payload.system,
                  client := payload.client, field_table := rows }

/-! Specification-side definitions used to state the claims. -/

/-- Concatenation, in order, of the textPayload fields of a node list. -/
def concatPayloads : List Node → String
  | [] => ""
  | node :: rest => node.textPayload ++ concatPayloads rest

/-- Concatenation of the textPayload fields of the input list with a
newline separator inserted exactly between each pair of consecutive ITEM
nodes, i.e. at each merge point of `merge_consecutive_items`. -/
def expectedConcat : List Node → String
  | [] => ""
  | [node] => node.textPayload
  | a :: b :: rest =>
    a.textPayload ++ (if isItem a && isItem b then "\n" else "") ++
      expectedConcat (b :: rest)

/-- Generalization of `expectedConcat` that remembers whether the
previously emitted node was an ITEM node. -/
def expectedConcatFrom (prevItem : Bool) : List Node → String
  | [] => ""
  | a :: rest =>
    (if prevItem && isItem a then "\n" else "") ++ a.textPayload ++
      expectedConcatFrom (isItem a) rest

/-- Whether some two adjacent nodes of the list are both ITEM nodes. -/
def hasAdjacentItems : List Node → Bool
  | [] => false
  | [_] => false
  | a :: b :: rest => (isItem a && isItem b) || hasAdjacentItems (b :: rest)

/-- Whether the list starts with an ITEM node. -/
def headItem : List Node → Bool
  | [] => false
  | a :: _ => isItem a

/-- Whether no node of the list is an ITEM node. -/
def noItemNodes (nodes : List Node) : Bool :=
  nodes.all fun x => ! isItem x

/-- Whether no node of the list is a page marker. -/
def noPageMarker (nodes : List Node) : Bool :=
  nodes.all fun x => ! isPageMarker x

/-- The page-marker classification restricted to the two elemName-based
rules, exactly as the no-fabrication claim words it: elemName is PAGE, or
elemName is NODETYPE with textPayload PA.  It omits the nodeType rule that
`extract_page_name` also applies. -/
def elemNamePageClassifiable (x : Node) : Bool :=
  pyUpper (pyStrip x.elemName) == "PAGE" ||
    (pyUpper (pyStrip x.elemName) == "NODETYPE" &&
      pyUpper (pyStrip x.textPayload) == "PA")

/-- Whether no node of the list is elemName-classifiable as a page
marker in the restricted sense of `elemNamePageClassifiable`. -/
def elemNameMarkerFree (nodes : List Node) : Bool :=
  nodes.all fun x => ! elemNamePageClassifiable x

/-- Every page marker among these nodes fails both its subtree scan
(performed over the remainder of the full list, whose shared tail is `l`)
and its attribute fallback, so the outer loop of `extract_page_name`
passes over all of them. -/
def prefixFails : List Node → List Node → Prop
  | [], _ => True
  | p :: ps, l =>
    (isPageMarker p = true →
      subtreeScan p.depth (ps ++ l) = none ∧ attrScan p.attributes = none) ∧
    prefixFails ps l

/-! Concrete records used by the example inputs of the theorems below. -/

/-- Concrete node builder: fixed id, parentId and path, chosen depth,
elemName, nodeType, textPayload and attributes. -/
def mkNode (d : Int) (en nt tp : String) (attrs : List Attribute) : Node :=
  { id := 0, parentId := 0, depth := d, path := "", elemName := en,
    elemNs := "", nodeType := nt, attributes := attrs, textPayload := tp }

/-! Lemmas about the merger. -/

theorem mergeAux_none_id (l : List Node) (h : ∀ x ∈ l, isItem x = false) :
    mergeAux none l = l := by
  induction l with
  | nil => rfl
  | cons x r ih =>
    have hx : isItem x = false := h x (List.mem_cons_self x r)
    simp only [mergeAux, hx, Bool.false_eq_true, if_false]
    exact congrArg (x :: ·) (ih fun y hy => h y (List.mem_cons_of_mem x hy))

theorem mergeAux_length_le (l : List Node) :
    (mergeAux none l).length ≤ l.length ∧
      ∀ b : Node, (mergeAux (some b) l).length ≤ l.length + 1 := by
  induction l with
  | nil => exact ⟨Nat.le_refl 0, fun _ => Nat.le_refl 1⟩
  | cons x r ih =>
    constructor
    · by_cases hx : isItem x
      · simp only [mergeAux, hx, if_true, List.length_cons]
        exact ih.2 x
      · simp only [mergeAux, hx, Bool.false_eq_true, if_false, List.length_cons]
        omega
    · intro b
      by_cases hx : isItem x
      · simp only [mergeAux, hx, if_true, List.length_cons]
        exact Nat.le_trans (ih.2 _) (by omega)
      · simp only [mergeAux, hx, Bool.false_eq_true, if_false, List.length_cons]
        have := ih.1
        omega

theorem hasAdjacentItems_cons_item (x : Node) (r : List Node)
    (hx : isItem x = true) :
    (hasAdjacentItems (x :: r) = false ↔
      (headItem r = false ∧ hasAdjacentItems r = false)) := by
  cases r with
  | nil => simp [hasAdjacentItems, headItem]
  | cons y r' => simp [hasAdjacentItems, headItem, hx]

theorem hasAdjacentItems_cons_nonitem (x : Node) (r : List Node)
    (hx : isItem x = false) :
    hasAdjacentItems (x :: r) = hasAdjacentItems r := by
  cases r with
  | nil => simp [hasAdjacentItems]
  | cons y r' => simp [hasAdjacentItems, hx]

theorem mergeAux_length_eq_char (l : List Node) :
    ((mergeAux none l).length = l.length ↔ hasAdjacentItems l = false) ∧
      ∀ b : Node, ((mergeAux (some b) l).length = l.length + 1 ↔
        (headItem l = false ∧ hasAdjacentItems l = false)) := by
  induction l with
  | nil =>
    constructor
    · simp [mergeAux, hasAdjacentItems]
    · intro b
      simp [mergeAux, hasAdjacentItems, headItem]
  | cons x r ih =>
    constructor
    · by_cases hx : isItem x
      · rw [hasAdjacentItems_cons_item x r hx]
        simp only [mergeAux, hx, if_true, List.length_cons]
        exact ih.2 x
      · have hx' : isItem x = false := by simpa using hx
        rw [hasAdjacentItems_cons_nonitem x r hx']
        simp only [mergeAux, hx', Bool.false_eq_true, if_false, List.length_cons]
        constructor
        · intro h
          exact ih.1.mp (by omega)
        · intro h
          have := ih.1.mpr h
          omega
    · intro b
      by_cases hx : isItem x
      · have hle : (mergeAux (some b) (x :: r)).length ≤ r.length + 1 := by
          simp only [mergeAux, hx, if_true]
          exact (mergeAux_length_le r).2 _
        apply iff_of_false
        · intro h
          rw [List.length_cons] at h
          omega
        · rintro ⟨hh, _⟩
          simp [headItem, hx] at hh
      · have hx' : isItem x = false := by simpa using hx
        have hh : headItem (x :: r) = false := by simp [headItem, hx']
        rw [List.length_cons, hh, hasAdjacentItems_cons_nonitem x r hx']
        simp only [mergeAux, hx', Bool.false_eq_true, if_false, List.length_cons]
        constructor
        · intro h
          exact ⟨trivial, ih.1.mp (by omega)⟩
        · rintro ⟨_, h⟩
          have := ih.1.mpr h
          omega

/-- C6: the merged list is never longer than the input, with equality
exactly when no two adjacent input nodes are both ITEM nodes; the empty
list maps to the empty list and any single node maps to a one-element
output. -/
theorem itemMerger_length_property (nodes : List Node) :
    (merge_consecutive_items nodes).length ≤ nodes.length ∧
      ((merge_consecutive_items nodes).length = nodes.length ↔
        hasAdjacentItems nodes = false) ∧
      merge_consecutive_items ([] : List Node) = [] ∧
      ∀ n : Node, (merge_consecutive_items [n]).length = 1 := by
  refine ⟨(mergeAux_length_le nodes).1, (mergeAux_length_eq_char nodes).1, rfl, ?_⟩
  intro n
  by_cases hn : isItem n <;>
    simp [merge_consecutive_items, mergeAux, hn]

/-- C7: a list with no ITEM node is returned unchanged by the merger. -/
theorem itemMerger_identity_without_items (nodes : List Node)
    (h : noItemNodes nodes = true) :
    merge_consecutive_items nodes = nodes := by
  apply mergeAux_none_id
  intro x hx
  have := List.all_eq_true.mp h x hx
  simpa using this

/-- Witness for C7 at a concrete two-node input with no ITEM node. -/
theorem itemMerger_identity_without_items_witness :
    noItemNodes [mkNode 1 "WINDOW" "WI" "" [], mkNode 2 "CAPTION" "" "X" []] = true ∧
      merge_consecutive_items
          [mkNode 1 "WINDOW" "WI" "" [], mkNode 2 "CAPTION" "" "X" []] =
        [mkNode 1 "WINDOW" "WI" "" [], mkNode 2 "CAPTION" "" "X" []] :=
  ⟨by decide, itemMerger_identity_without_items _ (by decide)⟩

theorem mergeAux_concat (l : List Node) :
    concatPayloads (mergeAux none l) = expectedConcatFrom false l ∧
      ∀ b : Node, isItem b = true →
        concatPayloads (mergeAux (some b) l) =
          b.textPayload ++ expectedConcatFrom true l := by
  induction l with
  | nil =>
    constructor
    · rfl
    · intro b _
      rfl
  | cons x r ih =>
    constructor
    · by_cases hx : isItem x
      · have hx' : isItem x = true := hx
        simp only [mergeAux, hx', if_true, expectedConcatFrom, Bool.false_and,
          if_false]
        rw [ih.2 x hx']
        simp [hx', String.empty_append]
      · have hx' : isItem x = false := by simpa using hx
        simp only [mergeAux, hx', Bool.false_eq_true, if_false, concatPayloads,
          expectedConcatFrom, Bool.false_and, if_false]
        rw [ih.1]
        simp [hx']
    · intro b hb
      by_cases hx : isItem x
      · have hx' : isItem x = true := hx
        simp only [mergeAux, hx', if_true]
        have hb2 : isItem { b with
            textPayload := b.textPayload ++ "\n" ++ x.textPayload,
            attributes := b.attributes ++ x.attributes } = true := hb
        rw [ih.2 _ hb2]
        simp only [expectedConcatFrom, hx', Bool.true_and, if_true]
        simp [String.append_assoc]
      · have hx' : isItem x = false := by simpa using hx
        simp only [mergeAux, hx', Bool.false_eq_true, if_false, concatPayloads,
          expectedConcatFrom, Bool.true_and, hx']
        rw [ih.1]
        simp [hx', String.append_assoc]

theorem expectedConcatFrom_eq (l : List Node) : ∀ p : Bool,
    expectedConcatFrom p l =
      (if p && headItem l then "\n" else "") ++ expectedConcat l := by
  induction l with
  | nil =>
    intro p
    simp [expectedConcatFrom, expectedConcat, headItem]
  | cons a r ih =>
    intro p
    rw [expectedConcatFrom, ih (isItem a)]
    cases r with
    | nil =>
      simp [expectedConcat, headItem, String.append_assoc]
    | cons b r' =>
      simp only [expectedConcat, headItem]
      simp [String.append_assoc]

/-- C2: concatenating the textPayload fields of the merged output equals
concatenating those of the input with a newline inserted exactly at each
point where two consecutive ITEM nodes were merged; no text is lost or
reordered. -/
theorem itemMerger_content_preservation (nodes : List Node) :
    concatPayloads (merge_consecutive_items nodes) = expectedConcat nodes := by
  have h := (mergeAux_concat nodes).1
  rw [show merge_consecutive_items nodes = mergeAux none nodes from rfl, h,
    expectedConcatFrom_eq nodes false]
  simp

/-! Lemmas about the resolver. -/

theorem extractAux_no_marker (l : List Node)
    (h : ∀ x ∈ l, isPageMarker x = false) : extractAux l = "" := by
  induction l with
  | nil => rfl
  | cons x r ih =>
    have hx : isPageMarker x = false := h x (List.mem_cons_self x r)
    simp only [extractAux, hx, Bool.false_eq_true, if_false]
    exact ih fun y hy => h y (List.mem_cons_of_mem x hy)

/-- C5 counterexample: a node whose elemName is FORM (neither PAGE nor
NODETYPE) but whose nodeType is PA is treated as a page marker, so the
resolver returns its CAPTION child even though no node is
elemName-classifiable as a page marker. -/
theorem resolver_nodeType_marker_counterexample :
    elemNameMarkerFree
        [mkNode 0 "FORM" "PA" "" [], mkNode 1 "CAPTION" "" "Main" []] = true ∧
      extract_page_name
          [mkNode 0 "FORM" "PA" "" [], mkNode 1 "CAPTION" "" "Main" []] ≠ "" :=
  ⟨by decide, by decide⟩

/-- C5 (amended): if no node is classifiable as a page marker under all
three rules of the code (elemName PAGE; elemName NODETYPE with trimmed
textPayload PA; trimmed nodeType PA), the resolver returns the empty
string. -/
theorem resolver_empty_without_markers (nodes : List Node)
    (h : noPageMarker nodes = true) : extract_page_name nodes = "" := by
  apply extractAux_no_marker
  intro x hx
  have := List.all_eq_true.mp h x hx
  simpa using this

/-- Witness for the amended C5 at a concrete marker-free input. -/
theorem resolver_empty_without_markers_witness :
    noPageMarker [mkNode 0 "WINDOW" "WI" "" [], mkNode 1 "CAPTION" "" "X" []] = true ∧
      extract_page_name
          [mkNode 0 "WINDOW" "WI" "" [], mkNode 1 "CAPTION" "" "X" []] = "" :=
  ⟨by decide, resolver_empty_without_markers _ (by decide)⟩

/-- C3: a page marker whose subtree scan and attribute fallback both fail
is passed over, and the outer scan resumes at the node immediately after
the marker, so every later node — including nodes lying inside the
rejected subtree — is still scanned. -/
theorem resolver_resumes_after_failed_marker (m : Node) (rest : List Node)
    (hm : isPageMarker m = true)
    (hsub : subtreeScan m.depth rest = none)
    (hattr : attrScan m.attributes = none) :
    extract_page_name (m :: rest) = extract_page_name rest := by
  simp [extract_page_name, extractAux, hm, hsub, hattr]

/-- Witness for C3: an outer PAGE marker with no caption and no usable
attribute is rejected, and the PAGE marker inside its subtree (depth 1)
then yields the name via its own iname attribute. -/
theorem resolver_resumes_after_failed_marker_witness :
    extract_page_name
        [mkNode 0 "PAGE" "" "" [],
         mkNode 1 "PAGE" "" "" [{ name := "iname", value := "Summary" }]] =
      extract_page_name
        [mkNode 1 "PAGE" "" "" [{ name := "iname", value := "Summary" }]] ∧
      extract_page_name
          [mkNode 1 "PAGE" "" "" [{ name := "iname", value := "Summary" }]] =
        "Summary" :=
  ⟨resolver_resumes_after_failed_marker _ _ (by decide) (by decide) (by decide),
    by decide⟩

theorem attrScan_append_found (as1 : List Attribute) (a : Attribute)
    (as2 : List Attribute) (h1 : ∀ x ∈ as1, attrHit x = false)
    (ha : attrHit a = true) :
    attrScan (as1 ++ a :: as2) = some (pyStrip a.value) := by
  induction as1 with
  | nil =>
    simp [attrScan, ha]
  | cons x as1' ih =>
    have hx : attrHit x = false := h1 x (List.mem_cons_self x as1')
    simp only [List.cons_append, attrScan, hx, Bool.false_eq_true, if_false]
    exact ih fun y hy => h1 y (List.mem_cons_of_mem x hy)

/-- C4: at a page marker whose attribute list contains a first usable
attribute `a` (name, iname or caption with non-empty trimmed value), the
resolver returns the subtree-scan result when that scan succeeds, and the
trimmed value of `a` only when the subtree scan fails — the attribute
check never preempts the subtree scan. -/
theorem resolver_attribute_fallback (m : Node) (rest : List Node)
    (as1 as2 : List Attribute) (a : Attribute)
    (hm : isPageMarker m = true)
    (hattrs : m.attributes = as1 ++ a :: as2)
    (h1 : ∀ x ∈ as1, attrHit x = false)
    (ha : attrHit a = true) :
    extract_page_name (m :: rest) =
      (match subtreeScan m.depth rest with
       | some s => s
       | none => pyStrip a.value) := by
  have hscan : attrScan m.attributes = some (pyStrip a.value) := by
    rw [hattrs]
    exact attrScan_append_found as1 a as2 h1 ha
  cases hs : subtreeScan m.depth rest with
  | some s => simp [extract_page_name, extractAux, hm, hs]
  | none => simp [extract_page_name, extractAux, hm, hs, hscan]

/-- Witness for C4, the Scenario D shape: a PAGE marker whose subtree has
no CAPTION or INAME but whose attributes hold iname = Summary resolves to
Summary. -/
theorem resolver_attribute_fallback_witness :
    extract_page_name
        [mkNode 0 "PAGE" "" "" [{ name := "iname", value := "Summary" }],
         mkNode 1 "WINDOW" "WI" "" []] = "Summary" := by
  have h := resolver_attribute_fallback
    (mkNode 0 "PAGE" "" "" [{ name := "iname", value := "Summary" }])
    [mkNode 1 "WINDOW" "WI" "" []] [] []
    { name := "iname", value := "Summary" }
    (by decide) rfl (by simp) (by decide)
  exact h.trans (by decide)

theorem prefixFails_skip (pre : List Node) : ∀ l : List Node,
    prefixFails pre l → extractAux (pre ++ l) = extractAux l := by
  induction pre with
  | nil =>
    intro l _
    rfl
  | cons p ps ih =>
    intro l h
    obtain ⟨hp, hps⟩ := h
    rw [List.cons_append]
    by_cases hm : isPageMarker p
    · obtain ⟨h1, h2⟩ := hp hm
      simp only [extractAux, hm, if_true, h1, h2]
      exact ih l hps
    · have hm' : isPageMarker p = false := by simpa using hm
      simp only [extractAux, hm', Bool.false_eq_true, if_false]
      exact ih l hps

theorem subtreeScan_first_caption (d : Int) (q : List Node) : ∀ (c : Node)
    (tail : List Node), (∀ x ∈ q, d < x.depth ∧ captionHit x = false) →
    d < c.depth → captionHit c = true →
    subtreeScan d (q ++ c :: tail) = some (pyStrip c.textPayload) := by
  induction q with
  | nil =>
    intro c tail _ hcd hc
    have hnd : ¬ c.depth ≤ d := by omega
    simp [subtreeScan, hnd, hc]
  | cons x q' ih =>
    intro c tail h hcd hc
    have hx := h x (List.mem_cons_self x q')
    have hnd : ¬ x.depth ≤ d := by omega
    simp only [List.cons_append, subtreeScan, hnd, if_false, hx.2,
      Bool.false_eq_true]
    exact ih c tail (fun y hy => h y (List.mem_cons_of_mem x hy)) hcd hc

/-- C1: when every earlier page marker fails both its subtree scan and
its attribute fallback, a page marker `m` followed inside its subtree
(nodes of depth strictly greater than the depth of `m`) by a first
caption-bearing node `c` makes the resolver return the trimmed
textPayload of `c`, whatever follows `c` — in particular a second valid
page marker further on is never consulted. -/
theorem resolver_first_marker_first_caption
    (pre q tail : List Node) (m c : Node)
    (hpre : prefixFails pre (m :: (q ++ c :: tail)))
    (hm : isPageMarker m = true)
    (hq : ∀ x ∈ q, m.depth < x.depth ∧ captionHit x = false)
    (hcd : m.depth < c.depth)
    (hc : captionHit c = true) :
    extract_page_name (pre ++ m :: (q ++ c :: tail)) =
      pyStrip c.textPayload := by
  rw [show extract_page_name (pre ++ m :: (q ++ c :: tail)) =
      extractAux (pre ++ m :: (q ++ c :: tail)) from rfl,
    prefixFails_skip pre _ hpre]
  have hs := subtreeScan_first_caption m.depth q c tail hq hcd hc
  simp [extractAux, hm, hs]

/-- Witness for C1: two PAGE markers, each with a valid CAPTION child;
the resolver returns the caption of the first marker, not that of the
second. -/
theorem resolver_first_marker_first_caption_witness :
    extract_page_name
        [mkNode 0 "PAGE" "" "" [], mkNode 1 "CAPTION" "" "Invoice Page" [],
         mkNode 0 "PAGE" "" "" [], mkNode 1 "CAPTION" "" "Second Page" []] =
      "Invoice Page" ∧
      isPageMarker (mkNode 0 "PAGE" "" "" []) = true ∧
      captionHit (mkNode 1 "CAPTION" "" "Second Page" []) = true := by
  refine ⟨?_, by decide, by decide⟩
  have h := resolver_first_marker_first_caption [] []
    [mkNode 0 "PAGE" "" "" [], mkNode 1 "CAPTION" "" "Second Page" []]
    (mkNode 0 "PAGE" "" "" []) (mkNode 1 "CAPTION" "" "Invoice Page" [])
    trivial (by decide) (by simp) (by decide) (by decide)
  exact h.trans (by decide)

theorem subtreeScan_mem (l : List Node) : ∀ (d : Int) (s : String),
    subtreeScan d l = some s → ∃ x, x ∈ l ∧ s = pyStrip x.textPayload := by
  induction l with
  | nil =>
    intro d s h
    simp [subtreeScan] at h
  | cons x r ih =>
    intro d s h
    by_cases h1 : x.depth ≤ d
    · simp [subtreeScan, h1] at h
    · by_cases h2 : captionHit x
      · simp [subtreeScan, h1, h2] at h
        exact ⟨x, List.mem_cons_self x r, h.symm⟩
      · have h2' : captionHit x = false := by simpa using h2
        simp only [subtreeScan, h1, if_false, h2', Bool.false_eq_true] at h
        obtain ⟨y, hy, hs⟩ := ih d s h
        exact ⟨y, List.mem_cons_of_mem x hy, hs⟩

theorem attrScan_mem (l : List Attribute) : ∀ s : String,
    attrScan l = some s → ∃ a, a ∈ l ∧ s = pyStrip a.value := by
  induction l with
  | nil =>
    intro s h
    simp [attrScan] at h
  | cons x r ih =>
    intro s h
    by_cases h1 : attrHit x
    · simp [attrScan, h1] at h
      exact ⟨x, List.mem_cons_self x r, h.symm⟩
    · have h1' : attrHit x = false := by simpa using h1
      simp only [attrScan, h1', Bool.false_eq_true, if_false] at h
      obtain ⟨a, ha, hs⟩ := ih s h
      exact ⟨a, List.mem_cons_of_mem x ha, hs⟩

theorem extractAux_provenance (nodes : List Node) :
    extractAux nodes = "" ∨
      (∃ x, x ∈ nodes ∧ extractAux nodes = pyStrip x.textPayload) ∨
      (∃ x, x ∈ nodes ∧ isPageMarker x = true ∧
        ∃ a, a ∈ x.attributes ∧ extractAux nodes = pyStrip a.value) := by
  induction nodes with
  | nil => exact Or.inl rfl
  | cons x r ih =>
    by_cases hm : isPageMarker x
    · cases hs : subtreeScan x.depth r with
      | some s =>
        have hx : extractAux (x :: r) = s := by simp [extractAux, hm, hs]
        obtain ⟨y, hy, hsy⟩ := subtreeScan_mem r x.depth s hs
        exact Or.inr (Or.inl ⟨y, List.mem_cons_of_mem x hy, by rw [hx, hsy]⟩)
      | none =>
        cases ha : attrScan x.attributes with
        | some v =>
          have hx : extractAux (x :: r) = v := by simp [extractAux, hm, hs, ha]
          obtain ⟨a, haa, hav⟩ := attrScan_mem x.attributes v ha
          exact Or.inr (Or.inr ⟨x, List.mem_cons_self x r, hm, a, haa,
            by rw [hx, hav]⟩)
        | none =>
          have hx : extractAux (x :: r) = extractAux r := by
            simp [extractAux, hm, hs, ha]
          rw [hx]
          rcases ih with h0 | ⟨y, hy, he⟩ | ⟨y, hy, hym, a, ha2, he⟩
          · exact Or.inl h0
          · exact Or.inr (Or.inl ⟨y, List.mem_cons_of_mem x hy, he⟩)
          · exact Or.inr (Or.inr ⟨y, List.mem_cons_of_mem x hy, hym, a, ha2, he⟩)
    · have hm' : isPageMarker x = false := by simpa using hm
      have hx : extractAux (x :: r) = extractAux r := by
        simp [extractAux, hm']
      rw [hx]
      rcases ih with h0 | ⟨y, hy, he⟩ | ⟨y, hy, hym, a, ha2, he⟩
      · exact Or.inl h0
      · exact Or.inr (Or.inl ⟨y, List.mem_cons_of_mem x hy, he⟩)
      · exact Or.inr (Or.inr ⟨y, List.mem_cons_of_mem x hy, hym, a, ha2, he⟩)

/-- C8: whatever the resolver returns is either the empty string, the
trimmed textPayload of some input node, or the trimmed value of an
attribute of some input node that is a page marker — never a string
fabricated from elsewhere. -/
theorem resolver_provenance (nodes : List Node) :
    extract_page_name nodes = "" ∨
      (∃ x, x ∈ nodes ∧ extract_page_name nodes = pyStrip x.textPayload) ∨
      (∃ x, x ∈ nodes ∧ isPageMarker x = true ∧
        ∃ a, a ∈ x.attributes ∧ extract_page_name nodes = pyStrip a.value) :=
  extractAux_provenance nodes

/-- C9: the endpoint performs exactly one engine call on the merged nodes
and resolved page name; an engine failure is neither caught-and-recovered
nor retried but surfaces as the single 502 service error carrying the
failure detail, and an engine success yields exactly the response
formName, system, client and the unmodified engine structure as
field_table. -/
theorem endpoint_error_propagation {α : Type}
    (engine : List Node → String → Except String α)
    (payload : SmartFormInput) :
    (∀ e : String,
      engine (merge_consecutive_items payload.nodes)
          (extract_page_name (merge_consecutive_items payload.nodes)) =
        Except.error e →
      explain_smartform engine payload =
        Except.error { status := 502, detail := "LLM call failed: " ++ e }) ∧
    (∀ rows : α,
      engine (merge_consecutive_items payload.nodes)
          (extract_page_name (merge_consecutive_items payload.nodes)) =
        Except.ok rows →
      explain_smartform engine payload =
        Except.ok { formName := payload.formName, system := payload.system,
                    client := payload.client, field_table := rows }) := by
  constructor
  · intro e he
    simp [explain_smartform, llm_explain_nodes, he]
  · intro rows hr
    simp [explain_smartform, llm_explain_nodes, hr]

/-- Witness for C9: a concrete request against an engine that always
fails yields the 502 error, and against an engine that always succeeds
yields the echoing response with the engine value passed through. -/
theorem endpoint_error_propagation_witness :
    explain_smartform (fun _ _ => (Except.error "boom" : Except String Nat))
        { formName := "F", system := "S", client := "C", language := "",
          sourceKind := "SF", extractedat := "now", nodes := [] } =
      Except.error { status := 502, detail := "LLM call failed: boom" } ∧
    explain_smartform (fun _ _ => (Except.ok 7 : Except String Nat))
        { formName := "F", system := "S", client := "C", language := "",
          sourceKind := "SF", extractedat := "now", nodes := [] } =
      Except.ok { formName := "F", system := "S", client := "C",
                  field_table := 7 } :=
  ⟨(endpoint_error_propagation (fun _ _ => Except.error "boom")
      { formName := "F", system := "S", client := "C", language := "",
        sourceKind := "SF", extractedat := "now", nodes := [] }).1 "boom" rfl,
    (endpoint_error_propagation (fun _ _ => Except.ok 7)
      { formName := "F", system := "S", client := "C", language := "",
        sourceKind := "SF", extractedat := "now", nodes := [] }).2 7 rfl⟩

/-- C10: merging is keyed only on elemName: two consecutive ITEM nodes
are collapsed into one node that keeps every scalar field of the first
node (id, parentId, depth, path, nodeType and namespace) and only joins
the payloads and attribute lists, whatever the two depths, ids, parent
ids or paths were. -/
theorem itemMerger_keyed_on_elemName_only (a b : Node)
    (ha : isItem a = true) (hb : isItem b = true) :
    merge_consecutive_items [a, b] =
      [{ a with textPayload := a.textPayload ++ "\n" ++ b.textPayload,
                attributes := a.attributes ++ b.attributes }] := by
  simp [merge_consecutive_items, mergeAux, ha, hb]

/-- Witness for C10: two ITEM nodes with different id, parentId, depth
and path merge into one node carrying the first node's values of those
fields; the differences of the second node are discarded. -/
theorem itemMerger_keyed_on_elemName_only_witness :
    merge_consecutive_items
        [{ id := 1, parentId := 0, depth := 2, path := "/p/w/i1",
           elemName := "ITEM", elemNs := "", nodeType := "",
           attributes := [], textPayload := "A" },
         { id := 9, parentId := 5, depth := 7, path := "/other",
           elemName := " item ", elemNs := "", nodeType := "",
           attributes := [], textPayload := "B" }] =
      [{ id := 1, parentId := 0, depth := 2, path := "/p/w/i1",
         elemName := "ITEM", elemNs := "", nodeType := "",
         attributes := [], textPayload := "A\nB" }] ∧
      (2 : Int) ≠ 7 ∧ (1 : Int) ≠ 9 ∧ (0 : Int) ≠ 5 ∧
      ("/p/w/i1" : String) ≠ "/other" := by
  refine ⟨?_, by decide, by decide, by decide, by decide⟩
  have h := itemMerger_keyed_on_elemName_only
    { id := 1, parentId := 0, depth := 2, path := "/p/w/i1",
      elemName := "ITEM", elemNs := "", nodeType := "",
      attributes := [], textPayload := "A" }
    { id := 9, parentId := 5, depth := 7, path := "/other",
      elemName := " item ", elemNs := "", nodeType := "",
      attributes := [], textPayload := "B" }
    (by decide) (by decide)
  exact h.trans (by decide)

end SmartForm
